import Mathlib

/-!
Shallow embedding of `src/bloom_filter_concur.py` (a persistent, concurrently
accessed Bloom filter) and verification of the frozen claims about it.

The embedding translates the source:
* `hashlib.sha256` is embedded as the full SHA-256 algorithm (FIPS 180-4) on
  byte lists, with `str.encode()` embedded as UTF-8 encoding;
* `BloomFilter.compute_hash` becomes `compute_hash`;
* the mmap-backed byte-per-bit array becomes a `List Nat` of cells;
* the metadata file (`pickle` of `{size, hash_count}`) becomes an
  `Option (Nat × Nat)` (`none` = file removed);
* `add_elem` / `check_member` / `delete` become functions on the filter state,
  returning `Except` (a missing metadata file raises `FileNotFoundError` in
  Python, modelled as `Except.error`);
* Python's `str()` on the values the API receives (ints and strings) becomes
  `pyStr` on `PyValue`;
* the real-valued parameter derivation (`math.log` on floats, `int()`
  truncation) is modelled over `ℝ` with `Real.log` and truncation `pyInt`.
-/

/-! ## SHA-256 (the `hashlib.sha256` primitive used by `compute_hash`) -/

/-- Truncate to a 32-bit word, as every SHA-256 operation is mod 2^32. -/
def w32 (x : Nat) : Nat := x % 4294967296

/-- 32-bit right rotation. -/
def rotr (n x : Nat) : Nat := w32 ((x >>> n) ||| (x <<< (32 - n)))

/-- 32-bit bitwise complement. -/
def compl32 (x : Nat) : Nat := x ^^^ 4294967295

/-- The 64 SHA-256 round constants (fractional parts of cube roots of the
first 64 primes). -/
def sha256K : List Nat :=
  [1116352408, 1899447441, 3049323471, 3921009573, 961987163,
   1508970993, 2453635748, 2870763221, 3624381080, 310598401,
   607225278, 1426881987, 1925078388, 2162078206, 2614888103,
   3248222580, 3835390401, 4022224774, 264347078, 604807628,
   770255983, 1249150122, 1555081692, 1996064986, 2554220882,
   2821834349, 2952996808, 3210313671, 3336571891, 3584528711,
   113926993, 338241895, 666307205, 773529912, 1294757372,
   1396182291, 1695183700, 1986661051, 2177026350, 2456956037,
   2730485921, 2820302411, 3259730800, 3345764771, 3516065817,
   3600352804, 4094571909, 275423344, 430227734, 506948616,
   659060556, 883997877, 958139571, 1322822218, 1537002063,
   1747873779, 1955562222, 2024104815, 2227730452, 2361852424,
   2428436474, 2756734187, 3204031479, 3329325298]

/-- The initial SHA-256 hash state (fractional parts of square roots of the
first 8 primes). -/
def sha256H0 : List Nat :=
  [1779033703, 3144134277, 1013904242, 2773480762,
   1359893119, 2600822924, 528734635, 1541459225]

/-- SHA-256 message padding: append `0x80`, zero bytes to reach 56 mod 64,
then the bit length as 8 big-endian bytes. -/
def sha256Pad (msg : List Nat) : List Nat :=
  let l := msg.length
  let zeros := (119 - (l % 64)) % 64
  let lenBytes := (List.range 8).map (fun i => ((8 * l) >>> (8 * (7 - i))) % 256)
  msg ++ [0x80] ++ List.replicate zeros 0 ++ lenBytes

/-- Split a byte list into 64-byte blocks (structural recursion on a fuel
bound so the definition reduces; the fuel `l.length` always suffices). -/
def toBlocksAux : Nat → List Nat → List (List Nat)
  | 0, _ => []
  | _ + 1, [] => []
  | fuel + 1, x :: xs => (x :: xs).take 64 :: toBlocksAux fuel ((x :: xs).drop 64)

/-- Split a byte list into 64-byte blocks. -/
def toBlocks (l : List Nat) : List (List Nat) := toBlocksAux l.length l

/-- Read 4 bytes at offset `4*i` of a block as a big-endian 32-bit word. -/
def blockWord (b : List Nat) (i : Nat) : Nat :=
  b.getD (4 * i) 0 * 16777216 + b.getD (4 * i + 1) 0 * 65536 +
    b.getD (4 * i + 2) 0 * 256 + b.getD (4 * i + 3) 0

/-- Message-schedule extension step: append the next word `W[t]` from
`W[t-2], W[t-7], W[t-15], W[t-16]`. -/
def scheduleStep (ws : List Nat) : List Nat :=
  let n := ws.length
  let s0 := rotr 7 (ws.getD (n - 15) 0) ^^^ rotr 18 (ws.getD (n - 15) 0) ^^^
    (ws.getD (n - 15) 0 >>> 3)
  let s1 := rotr 17 (ws.getD (n - 2) 0) ^^^ rotr 19 (ws.getD (n - 2) 0) ^^^
    (ws.getD (n - 2) 0 >>> 10)
  ws ++ [w32 (ws.getD (n - 16) 0 + s0 + ws.getD (n - 7) 0 + s1)]

/-- The 64-entry message schedule of a block. -/
def sha256Schedule (b : List Nat) : List Nat :=
  (List.range 48).foldl (fun ws _ => scheduleStep ws) ((List.range 16).map (blockWord b))

/-- One round of the SHA-256 compression function on the working variables
`[a, b, c, d, e, f, g, h]`, given `(W[t], K[t])`. -/
def sha256Round (st : List Nat) (wk : Nat × Nat) : List Nat :=
  let a := st.getD 0 0
  let b := st.getD 1 0
  let c := st.getD 2 0
  let d := st.getD 3 0
  let e := st.getD 4 0
  let f := st.getD 5 0
  let g := st.getD 6 0
  let h := st.getD 7 0
  let s1 := rotr 6 e ^^^ rotr 11 e ^^^ rotr 25 e
  let ch := (e &&& f) ^^^ (compl32 e &&& g)
  let temp1 := w32 (h + s1 + ch + wk.2 + wk.1)
  let s0 := rotr 2 a ^^^ rotr 13 a ^^^ rotr 22 a
  let maj := (a &&& b) ^^^ (a &&& c) ^^^ (b &&& c)
  let temp2 := w32 (s0 + maj)
  [w32 (temp1 + temp2), a, b, c, w32 (d + temp1), e, f, g]

/-- Compress one 64-byte block into the running hash state. -/
def sha256Compress (h : List Nat) (block : List Nat) : List Nat :=
  let final := ((sha256Schedule block).zip sha256K).foldl sha256Round h
  h.zipWith (fun x y => w32 (x + y)) final

/-- SHA-256 digest of a byte list, interpreted as a big-endian 256-bit
natural number — exactly `int(hashlib.sha256(bytes).hexdigest(), 16)`. -/
def sha256Nat (msg : List Nat) : Nat :=
  ((toBlocks (sha256Pad msg)).foldl sha256Compress sha256H0).foldl
    (fun acc word => acc * 4294967296 + word) 0

/-! ## UTF-8 encoding (Python's `str.encode()`) -/

/-- UTF-8 encoding of one code point. -/
def utf8Char (c : Char) : List Nat :=
  let n := c.toNat
  if n < 128 then [n]
  else if n < 2048 then [192 ||| (n >>> 6), 128 ||| (n &&& 63)]
  else if n < 65536 then
    [224 ||| (n >>> 12), 128 ||| ((n >>> 6) &&& 63), 128 ||| (n &&& 63)]
  else
    [240 ||| (n >>> 18), 128 ||| ((n >>> 12) &&& 63),
     128 ||| ((n >>> 6) &&& 63), 128 ||| (n &&& 63)]

/-- UTF-8 encoding of a string, as Python's `str.encode()` produces. -/
def utf8Encode (s : String) : List Nat := (s.toList.map utf8Char).flatten

/-! ## Elements and Python's `str()` serialization -/

/-- The values the demo driver passes to `add_elem` / `check_member`:
Python ints and strings. -/
inductive PyValue where
  | int : Int → PyValue
  | str : String → PyValue
deriving DecidableEq

/-- Python's `str()` on a `PyValue`: decimal form for an int, the string
itself for a string (`str(1) = "1"`, `str("1") = "1"`). -/
def pyStr : PyValue → String
  | .int n => toString n
  | .str s => s

/-! ## `BloomFilter.compute_hash` and the bit-array operations -/

/-- `BloomFilter.compute_hash(elem, i)`: SHA-256 of `(elem + str(i)).encode()`
interpreted as a big integer (`int(hexdigest, 16)`), reduced mod `size`. -/
def compute_hash (size : Nat) (elem : String) (i : Nat) : Nat :=
  sha256Nat (utf8Encode (elem ++ toString i)) % size

/-- The `hash_count` bit positions an `add`/`check` visits for a serialized
element: `compute_hash(elem, i)` for `i` in `range(hash_count)`. -/
def hash_positions (size hash_count : Nat) (elem : String) : List Nat :=
  (List.range hash_count).map (compute_hash size elem)

/-- Apply a sequence of atomic byte writes `bit_array[j] = 1` in order.
Each cell of the mmap-backed array holds one byte. -/
def applyWrites (bits : List Nat) (l : List Nat) : List Nat :=
  l.foldl (fun b j => b.set j 1) bits

/-- The bit-setting loop of `add_elem`:
`for i in range(hash_count): bit_array[compute_hash(elem, i)] = 1`. -/
def set_bits (bits : List Nat) (size hash_count : Nat) (elem : String) : List Nat :=
  applyWrites bits (hash_positions size hash_count elem)

/-- The membership loop of `check_member`: `res` stays `True` unless some
position's byte differs from 1 (the source breaks out early, which is the
short-circuit of `List.all`). -/
def check_bits (bits : List Nat) (size hash_count : Nat) (elem : String) : Bool :=
  (List.range hash_count).all (fun i => bits.getD (compute_hash size elem i) 0 == 1)

/-! ## The filter state and its operations -/

/-- The state of a `BloomFilter` instance together with its on-disk artifacts:
the in-memory attributes `size` and `hash_count`, the mmap view `bit_array`
(one byte per logical bit), and the metadata file contents (`none` once the
file has been removed by `delete`). -/
structure BF where
  size : Nat
  hash_count : Nat
  bit_array : List Nat
  meta : Option (Nat × Nat)
deriving DecidableEq

/-- Errors surfaced to the caller. `load_metadata` opens the metadata file,
so a removed file raises `FileNotFoundError`. -/
inductive Err where
  | metaFileNotFound : Err
deriving DecidableEq

/-- `BloomFilter.__init__` after the parameters have been computed:
deletes any pre-existing store at the path, writes `size` zero bytes,
mmaps them, and persists the metadata `{size, hash_count}`.  The result
does not depend on anything previously stored at the path. -/
def construct (size hash_count : Nat) : BF :=
  { size := size, hash_count := hash_count,
    bit_array := List.replicate size 0, meta := some (size, hash_count) }

/-- `BloomFilter.load_metadata`: re-read `size` and `hash_count` from the
metadata file; `none` when the file is missing (Python raises
`FileNotFoundError`). -/
def load_metadata (bf : BF) : Option BF :=
  bf.meta.map (fun m => { bf with size := m.1, hash_count := m.2 })

/-- `BloomFilter.add_elem(elem)` (sequential semantics; the writer-entry
semaphore protocol does not change the data result of an isolated call):
reload metadata, set the byte at each of the `hash_count` positions of
`str(elem)`, flush. -/
def add_elem (bf : BF) (elem : PyValue) : Except Err BF :=
  match load_metadata bf with
  | none => .error .metaFileNotFound
  | some bf' =>
    .ok { bf' with
          bit_array := set_bits bf'.bit_array bf'.size bf'.hash_count (pyStr elem) }

/-- `BloomFilter.check_member(elem)` (sequential semantics; the reader-entry
protocol does not change the data result of an isolated call): reload
metadata, return whether every one of the `hash_count` positions of
`str(elem)` holds the byte 1. -/
def check_member (bf : BF) (elem : PyValue) : Except Err Bool :=
  match load_metadata bf with
  | none => .error .metaFileNotFound
  | some bf' => .ok (check_bits bf'.bit_array bf'.size bf'.hash_count (pyStr elem))

/-- `BloomFilter.delete()`: `os.remove` both the bit-array file and the
metadata file.  The instance keeps its (now orphaned) mmap view; the
metadata file is gone, so later `load_metadata` calls fail. -/
def delete (bf : BF) : BF := { bf with meta := none }

/-! ## Parameter derivation in `BloomFilter.__init__`

The source computes `size` and `hash_count` with `math.log` on floats and
`int()` truncation.  The arithmetic is modelled over `ℝ`; the inputs the
claims evaluate are far from any float rounding boundary. -/

/-- Python's `int()` on a real: truncation toward zero. -/
noncomputable def pyInt (x : ℝ) : ℤ := if 0 ≤ x then ⌊x⌋ else -⌊-x⌋

/-- The real value `-num_elem * math.log(p) / math.log(2) ** 2` from line 33. -/
noncomputable def size_formula (n : ℕ) (p : ℝ) : ℝ :=
  -(n : ℝ) * Real.log p / (Real.log 2) ^ 2

/-- `self.size = int(-num_elem * math.log(p) / (math.log(2) ** 2))`. -/
noncomputable def filter_size (n : ℕ) (p : ℝ) : ℤ := pyInt (size_formula n p)

/-- `self.hash_count = int(self.size / num_elem * math.log(2))` — note the
already-truncated `self.size` feeds this, and no lower bound is applied. -/
noncomputable def hash_count_formula (n : ℕ) (p : ℝ) : ℤ :=
  pyInt ((filter_size n p : ℝ) / (n : ℝ) * Real.log 2)

/-! ## Bit-array lemmas -/

theorem length_applyWrites (l : List Nat) (bits : List Nat) :
    (applyWrites bits l).length = bits.length := by
  induction l generalizing bits with
  | nil => rfl
  | cons i l ih => simp [applyWrites, List.foldl_cons] at ih ⊢; rw [ih, List.length_set]

theorem getD_applyWrites (bits : List Nat) (l : List Nat) (j : Nat) :
    (applyWrites bits l).getD j 0 =
      if j ∈ l ∧ j < bits.length then 1 else bits.getD j 0 := by
  induction l generalizing bits with
  | nil => simp [applyWrites]
  | cons i l ih =>
    show (applyWrites (bits.set i 1) l).getD j 0 = _
    rw [ih]
    simp only [List.length_set, List.getD_eq_getElem?_getD, List.getElem?_set',
      List.mem_cons]
    by_cases hjl : j ∈ l ∧ j < bits.length
    · simp [hjl, hjl.1, hjl.2]
    · simp only [hjl, if_false]
      by_cases hij : i = j
      · subst hij
        by_cases hlen : i < bits.length
        · simp [List.getElem?_eq_getElem hlen, hlen]
        · simp [List.getElem?_eq_none (Nat.le_of_not_lt hlen), hlen]
      · have : ¬((j = i ∨ j ∈ l) ∧ j < bits.length) := by
          rintro ⟨hj | hj, hlen⟩
          · exact hij hj.symm
          · exact hjl ⟨hj, hlen⟩
        simp [hij, this]

theorem mem_hash_positions_lt {size hash_count : Nat} {elem : String} {j : Nat}
    (hs : 0 < size) (hj : j ∈ hash_positions size hash_count elem) : j < size := by
  simp only [hash_positions, List.mem_map] at hj
  obtain ⟨i, _, rfl⟩ := hj
  exact Nat.mod_lt _ hs

theorem check_bits_set_bits (bits : List Nat) (size hash_count : Nat) (elem : String)
    (hl : bits.length = size) (hs : 0 < size) :
    check_bits (set_bits bits size hash_count elem) size hash_count elem = true := by
  simp only [check_bits, set_bits, List.all_eq_true, List.mem_range]
  intro i hi
  rw [getD_applyWrites]
  have hmem : compute_hash size elem i ∈ hash_positions size hash_count elem :=
    List.mem_map.mpr ⟨i, List.mem_range.mpr hi, rfl⟩
  have hlt : compute_hash size elem i < bits.length := by
    rw [hl]; exact Nat.mod_lt _ hs
  rw [if_pos ⟨hmem, hlt⟩]
  rfl

theorem getD_replicate_zero (m j : Nat) : (List.replicate m 0).getD j 0 = 0 := by
  rw [List.getD_eq_getElem?_getD, List.getElem?_replicate]
  split <;> rfl

theorem check_bits_replicate_zero (m size hash_count : Nat) (elem : String)
    (hc : 0 < hash_count) :
    check_bits (List.replicate m 0) size hash_count elem = false := by
  simp only [check_bits]
  rw [List.all_eq_false]
  exact ⟨0, List.mem_range.mpr hc, by simp [getD_replicate_zero]⟩

theorem add_elem_eq (s0 h0 sz hc : Nat) (bits : List Nat) (e : PyValue) :
    add_elem ⟨s0, h0, bits, some (sz, hc)⟩ e =
      .ok ⟨sz, hc, set_bits bits sz hc (pyStr e), some (sz, hc)⟩ := rfl

theorem check_member_eq (s0 h0 sz hc : Nat) (bits : List Nat) (e : PyValue) :
    check_member ⟨s0, h0, bits, some (sz, hc)⟩ e =
      .ok (check_bits bits sz hc (pyStr e)) := rfl

theorem add_then_check_of_pyStr_eq (bf : BF) (v w : PyValue) (sz hc : Nat)
    (hvw : pyStr v = pyStr w) (hm : bf.meta = some (sz, hc))
    (hl : bf.bit_array.length = sz) (hs : 0 < sz) :
    (add_elem bf v).bind (fun bf2 => check_member bf2 w) = .ok true := by
  obtain ⟨s0, h0, bits, m⟩ := bf
  obtain rfl : m = some (sz, hc) := hm
  have hl' : bits.length = sz := hl
  rw [add_elem_eq]
  show check_member ⟨sz, hc, set_bits bits sz hc (pyStr v), some (sz, hc)⟩ w = .ok true
  rw [check_member_eq, ← hvw, check_bits_set_bits bits sz hc (pyStr v) hl' hs]

/-! ## Numeric lemmas about the parameter derivation -/

theorem pyInt_of_nonneg {x : ℝ} (h : 0 ≤ x) : pyInt x = ⌊x⌋ := if_pos h

theorem log2_pos : 0 < Real.log 2 := Real.log_pos (by norm_num)

theorem log_ten_lb : (3321 / 1000 : ℝ) * Real.log 2 < Real.log 10 := by
  have hn : (2 : ℕ) ^ 3321 < 10 ^ 1000 := by norm_num
  have h : ((2 : ℝ) ^ (3321 : ℕ)) < (10 : ℝ) ^ (1000 : ℕ) := by exact_mod_cast hn
  have h2 := Real.log_lt_log (by positivity) h
  rw [Real.log_pow, Real.log_pow] at h2
  push_cast at h2
  linarith

theorem log_ten_ub : Real.log 10 < (3322 / 1000 : ℝ) * Real.log 2 := by
  have hn : (10 : ℕ) ^ 1000 < 2 ^ 3322 := by norm_num
  have h : ((10 : ℝ) ^ (1000 : ℕ)) < (2 : ℝ) ^ (3322 : ℕ) := by exact_mod_cast hn
  have h2 := Real.log_lt_log (by positivity) h
  rw [Real.log_pow, Real.log_pow] at h2
  push_cast at h2
  linarith

theorem size_formula_100 :
    479 < size_formula 100 (1 / 10) ∧ size_formula 100 (1 / 10) < 480 := by
  have l2p := log2_pos
  have l2u := Real.log_two_lt_d9
  have l2l := Real.log_two_gt_d9
  have hlb := log_ten_lb
  have hub := log_ten_ub
  have hsq : (0 : ℝ) < (Real.log 2) ^ 2 := by positivity
  have hform : size_formula 100 (1 / 10) = 100 * Real.log 10 / (Real.log 2) ^ 2 := by
    unfold size_formula
    rw [show (1 / 10 : ℝ) = (10 : ℝ)⁻¹ by norm_num, Real.log_inv]
    push_cast
    ring
  constructor
  · rw [hform, lt_div_iff₀ hsq, pow_two]
    have key : 479 * Real.log 2 < 3321 / 10 := by linarith
    have k2 : 479 * Real.log 2 * Real.log 2 < 3321 / 10 * Real.log 2 :=
      mul_lt_mul_of_pos_right key l2p
    nlinarith [k2]
  · rw [hform, div_lt_iff₀ hsq, pow_two]
    have key : (3322 / 10 : ℝ) < 480 * Real.log 2 := by linarith
    have k2 : (3322 / 10 : ℝ) * Real.log 2 < 480 * Real.log 2 * Real.log 2 :=
      mul_lt_mul_of_pos_right key l2p
    nlinarith [k2]

theorem filter_size_100 : filter_size 100 (1 / 10) = 479 := by
  obtain ⟨h1, h2⟩ := size_formula_100
  have h0 : (0 : ℝ) ≤ size_formula 100 (1 / 10) := by linarith
  rw [filter_size, pyInt_of_nonneg h0, Int.floor_eq_iff]
  constructor <;> push_cast <;> linarith

theorem ceil_size_100 : ⌈size_formula 100 (1 / 10)⌉ = 480 := by
  obtain ⟨h1, h2⟩ := size_formula_100
  rw [Int.ceil_eq_iff]
  constructor <;> push_cast <;> linarith

theorem hash_count_100 : hash_count_formula 100 (1 / 10) = 3 := by
  have l2u := Real.log_two_lt_d9
  have l2l := Real.log_two_gt_d9
  rw [hash_count_formula, filter_size_100]
  have harg : ((479 : ℤ) : ℝ) / ((100 : ℕ) : ℝ) * Real.log 2 =
      479 / 100 * Real.log 2 := by push_cast; ring
  rw [harg, pyInt_of_nonneg (by positivity), Int.floor_eq_iff]
  constructor <;> push_cast <;> linarith

theorem log_10047_lb : Real.log 2 ≤ Real.log (100 / 47) := by
  apply Real.log_le_log (by norm_num)
  norm_num

theorem log_10047_ub : Real.log (100 / 47) < (11 / 10) * Real.log 2 := by
  have h : ((100 : ℝ) / 47) ^ (10 : ℕ) < (2 : ℝ) ^ (11 : ℕ) := by
    rw [div_pow, div_lt_iff₀ (by positivity)]
    norm_num
  have h2 := Real.log_lt_log (by positivity) h
  rw [Real.log_pow, Real.log_pow] at h2
  push_cast at h2
  linarith

theorem size_formula_1_47 :
    1 ≤ size_formula 1 (47 / 100) ∧ size_formula 1 (47 / 100) < 2 := by
  have l2p := log2_pos
  have l2u := Real.log_two_lt_d9
  have l2l := Real.log_two_gt_d9
  have hlb := log_10047_lb
  have hub := log_10047_ub
  have hsq : (0 : ℝ) < (Real.log 2) ^ 2 := by positivity
  have hform : size_formula 1 (47 / 100) = Real.log (100 / 47) / (Real.log 2) ^ 2 := by
    unfold size_formula
    rw [show (47 / 100 : ℝ) = ((100 : ℝ) / 47)⁻¹ by norm_num, Real.log_inv]
    push_cast
    ring
  constructor
  · rw [hform, le_div_iff₀ hsq, pow_two]
    nlinarith [mul_lt_mul_of_pos_right l2u l2p]
  · rw [hform, div_lt_iff₀ hsq, pow_two]
    nlinarith [mul_lt_mul_of_pos_right l2l l2p]

theorem filter_size_1_47 : filter_size 1 (47 / 100) = 1 := by
  obtain ⟨h1, h2⟩ := size_formula_1_47
  have h0 : (0 : ℝ) ≤ size_formula 1 (47 / 100) := by linarith
  rw [filter_size, pyInt_of_nonneg h0, Int.floor_eq_iff]
  constructor <;> push_cast <;> linarith

theorem hash_count_1_47 : hash_count_formula 1 (47 / 100) = 0 := by
  have l2u := Real.log_two_lt_d9
  have l2p := log2_pos
  rw [hash_count_formula, filter_size_1_47]
  have harg : ((1 : ℤ) : ℝ) / ((1 : ℕ) : ℝ) * Real.log 2 = Real.log 2 := by
    push_cast; ring
  rw [harg, pyInt_of_nonneg (le_of_lt l2p), Int.floor_eq_iff]
  constructor <;> push_cast <;> linarith

/-! ## The claims -/

/-- C1: on a live filter (metadata present and consistent with the allocated
bit array, positive size), with no concurrent operations, `add_elem e`
followed by `check_member e` returns `true`: `add` sets the byte at every one
of the `hash_count` positions of `str(e)` and `check_member` reads exactly
those positions. -/
theorem add_then_contains_returns_true (bf : BF) (e : PyValue) (sz hc : Nat)
    (hm : bf.meta = some (sz, hc)) (hl : bf.bit_array.length = sz) (hs : 0 < sz) :
    (add_elem bf e).bind (fun bf2 => check_member bf2 e) = .ok true :=
  add_then_check_of_pyStr_eq bf e e sz hc rfl hm hl hs

/-- C1 witness: the concrete filter of the demo driver (`size = 479`,
`hash_count = 3`), freshly constructed, with element `1`. -/
theorem add_then_contains_returns_true_witness :
    (construct 479 3).meta = some (479, 3) ∧
      (construct 479 3).bit_array.length = 479 ∧ 0 < 479 ∧
      (add_elem (construct 479 3) (PyValue.int 1)).bind
        (fun bf2 => check_member bf2 (PyValue.int 1)) = .ok true :=
  ⟨rfl, List.length_replicate _ _, by norm_num,
    add_then_contains_returns_true (construct 479 3) (PyValue.int 1) 479 3 rfl
      (List.length_replicate _ _) (by norm_num)⟩

/-- C2 counterexample: at `n = 100`, `p = 0.1` the code's `size`
(`int()` truncation, giving 479) differs from `ceil` of the real-valued
formula (480), so construction does not round up. -/
theorem size_not_ceil_at_100_p10 :
    filter_size 100 (1 / 10) = 479 ∧ ⌈size_formula 100 (1 / 10)⌉ = 480 ∧
      filter_size 100 (1 / 10) ≠ ⌈size_formula 100 (1 / 10)⌉ := by
  refine ⟨filter_size_100, ceil_size_100, ?_⟩
  rw [filter_size_100, ceil_size_100]
  decide

/-- C2 amended: for every valid construction input the bit-array length is
the FLOOR of `-n * ln(p) / (ln 2)^2` (Python `int()` truncation of a
nonnegative value), not the ceiling. -/
theorem size_is_int_truncation (n : ℕ) (p : ℝ) (_hn : 0 < n) (hp : 0 < p)
    (hp48 : p < 48 / 100) : filter_size n p = ⌊size_formula n p⌋ := by
  have hlog : Real.log p ≤ 0 := Real.log_nonpos (le_of_lt hp) (by linarith)
  have hn0 : (0 : ℝ) ≤ (n : ℝ) := Nat.cast_nonneg n
  have h0 : (0 : ℝ) ≤ size_formula n p := by
    unfold size_formula
    apply div_nonneg _ (sq_nonneg _)
    nlinarith
  exact pyInt_of_nonneg h0

/-- C2 amended witness: at `n = 100`, `p = 1/10`. -/
theorem size_is_int_truncation_witness :
    (0 < 100) ∧ ((0 : ℝ) < 1 / 10) ∧ ((1 / 10 : ℝ) < 48 / 100) ∧
      filter_size 100 (1 / 10) = ⌊size_formula 100 (1 / 10)⌋ :=
  ⟨by norm_num, by norm_num, by norm_num,
    size_is_int_truncation 100 (1 / 10) (by norm_num) (by norm_num) (by norm_num)⟩

/-- C3 counterexample: the code serializes with Python `str()`, under which
the int `1` and the string `"1"` produce the same string, so every hash
position coincides and `add(1)` forces `contains("1")` to return `true` by
construction (shown on the demo filter 479/3). -/
theorem int_one_and_str_one_collide :
    pyStr (PyValue.int 1) = pyStr (PyValue.str "1") ∧
      (add_elem (construct 479 3) (PyValue.int 1)).bind
        (fun bf2 => check_member bf2 (PyValue.str "1")) = .ok true :=
  ⟨rfl, add_then_check_of_pyStr_eq (construct 479 3) (PyValue.int 1)
    (PyValue.str "1") 479 3 rfl rfl (List.length_replicate _ _) (by norm_num)⟩

/-- C3 amended: any two elements with equal `str()` serializations (such as
`1` and `"1"`) get identical bit positions at every index, and adding one
forces `contains` of the other to return `true`. -/
theorem equal_pystr_forces_contains (bf : BF) (v w : PyValue) (sz hc : Nat)
    (hvw : pyStr v = pyStr w) (hm : bf.meta = some (sz, hc))
    (hl : bf.bit_array.length = sz) (hs : 0 < sz) :
    (∀ i : Nat, compute_hash sz (pyStr v) i = compute_hash sz (pyStr w) i) ∧
      (add_elem bf v).bind (fun bf2 => check_member bf2 w) = .ok true :=
  ⟨fun i => by rw [hvw], add_then_check_of_pyStr_eq bf v w sz hc hvw hm hl hs⟩

/-- C3 amended witness: `1` and `"1"` on a live 479/3 filter. -/
theorem equal_pystr_forces_contains_witness :
    pyStr (PyValue.int 1) = pyStr (PyValue.str "1") ∧
      (construct 479 3).meta = some (479, 3) ∧
      (construct 479 3).bit_array.length = 479 ∧ 0 < 479 ∧
      ((∀ i : Nat, compute_hash 479 (pyStr (PyValue.int 1)) i =
          compute_hash 479 (pyStr (PyValue.str "1")) i) ∧
        (add_elem (construct 479 3) (PyValue.int 1)).bind
          (fun bf2 => check_member bf2 (PyValue.str "1")) = .ok true) :=
  ⟨rfl, rfl, List.length_replicate _ _, by norm_num,
    equal_pystr_forces_contains (construct 479 3) (PyValue.int 1)
      (PyValue.str "1") 479 3 rfl rfl (List.length_replicate _ _) (by norm_num)⟩

/-- C4: construction with `expected_elements = 100` and
`target_false_positive_rate = 0.1` yields exactly `size = 479` and
`hash_count = 3`, as the spec's concrete scenario requires. -/
theorem construction_100_p10_yields_479_3 :
    filter_size 100 (1 / 10) = 479 ∧ hash_count_formula 100 (1 / 10) = 3 :=
  ⟨filter_size_100, hash_count_100⟩

/-- C5: the failing input for the claimed minimum. `n = 1`,
`p = 0.47` is a valid construction input (positive `n`, `0 < p < 0.48`),
yet the code derives `hash_count = 0`: line 34 applies no minimum of 1,
although the assertion message on line 31 presents `p < 0.48` as ruling out
"0 hash function". -/
theorem hash_count_zero_at_1_p47 :
    (0 < (1 : ℕ)) ∧ ((0 : ℝ) < 47 / 100) ∧ ((47 / 100 : ℝ) < 48 / 100) ∧
      hash_count_formula 1 (47 / 100) = 0 :=
  ⟨Nat.one_pos, by norm_num, by norm_num, hash_count_1_47⟩

/-- C6: `compute_hash` is a pure function of `(element, i, size)` — it is a
Lean function of exactly those arguments — whose value is the SHA-256 digest
of the element's string form concatenated with the decimal form of `i`,
interpreted as a big integer and reduced modulo `size`, hence in
`[0, size)` whenever `size > 0`. -/
theorem compute_hash_range_and_structure (size : Nat) (elem : String) (i : Nat)
    (h : 0 < size) :
    compute_hash size elem i < size ∧
      compute_hash size elem i = sha256Nat (utf8Encode (elem ++ toString i)) % size :=
  ⟨Nat.mod_lt _ h, rfl⟩

/-- C6 witness: at `size = 479`, element `"1"`, index 0. -/
theorem compute_hash_range_and_structure_witness :
    0 < 479 ∧ (compute_hash 479 "1" 0 < 479 ∧
      compute_hash 479 "1" 0 = sha256Nat (utf8Encode ("1" ++ toString 0)) % 479) :=
  ⟨by norm_num, compute_hash_range_and_structure 479 "1" 0 (by norm_num)⟩

/-- C7 counterexample: the only way to open a storage path is `__init__`,
which deletes the pre-existing store and zero-fills; so after `add("x")` on a
filter at a path, "reopening" that path (constructing again with the same
preserved metadata 479/3) yields a filter on which `contains("x")` returns
`false` without re-adding. -/
theorem reconstruct_after_add_contains_false :
    (add_elem (construct 479 3) (PyValue.str "x")).bind
      (fun _ => check_member (construct 479 3) (PyValue.str "x")) = .ok false := by
  rw [show construct 479 3 = ⟨479, 3, List.replicate 479 0, some (479, 3)⟩ from rfl,
    add_elem_eq]
  show check_member ⟨479, 3, List.replicate 479 0, some (479, 3)⟩ _ = _
  rw [check_member_eq, check_bits_replicate_zero 479 479 3 _ (by norm_num)]

/-- C7 amended: construction at a storage path never preserves previously set
bits — it always zero-fills — so for any filter parameters with at least one
hash function, adding an element and then re-constructing at the same path
makes `contains` of that element return `false`. -/
theorem reconstructed_filter_contains_false (sz hc : Nat) (e : PyValue)
    (h : 0 < hc) :
    (add_elem (construct sz hc) e).bind
      (fun _ => check_member (construct sz hc) e) = .ok false := by
  show check_member (construct sz hc) e = .ok false
  rw [show construct sz hc = ⟨sz, hc, List.replicate sz 0, some (sz, hc)⟩ from rfl,
    check_member_eq, check_bits_replicate_zero sz sz hc _ h]

/-- C7 amended witness: at `size = 100`, `hash_count = 1`, element `7`. -/
theorem reconstructed_filter_contains_false_witness :
    0 < 1 ∧ (add_elem (construct 100 1) (PyValue.int 7)).bind
      (fun _ => check_member (construct 100 1) (PyValue.int 7)) = .ok false :=
  ⟨by norm_num, reconstructed_filter_contains_false 100 1 (PyValue.int 7) (by norm_num)⟩

/-- C8: after `delete()` removes the store and the metadata record, every
subsequent `add_elem` or `check_member` call on the instance fails (its
`load_metadata` hits the missing metadata file — the spec's
`InvalidStateError` for a destroyed filter) instead of succeeding or
returning a value. -/
theorem destroyed_filter_ops_fail (bf : BF) (e e' : PyValue) :
    add_elem (delete bf) e = .error .metaFileNotFound ∧
      check_member (delete bf) e' = .error .metaFileNotFound :=
  ⟨rfl, rfl⟩

/-- C9: writer atomicity of the bit writes. Each `add` issues the byte
writes `bit_array[pos] = 1` for its element's positions; a concurrent
execution of N adds is any interleaving — hence any permutation — of the
concatenation of their write sequences. Every such schedule produces the
same final array as the sequential order, and that array holds a 1 exactly
at the union of the positions the adds would set individually (no write is
lost), on top of whatever was already set. -/
theorem concurrent_adds_final_is_union (sz hc : Nat) (bits : List Nat)
    (elems : List PyValue) (sched : List Nat)
    (hp : sched.Perm
      (List.flatten (elems.map (fun e => hash_positions sz hc (pyStr e))))) :
    applyWrites bits sched =
      applyWrites bits
        (List.flatten (elems.map (fun e => hash_positions sz hc (pyStr e)))) ∧
      ∀ j : Nat, ((applyWrites bits sched).getD j 0 = 1 ↔
        ((∃ e ∈ elems, j ∈ hash_positions sz hc (pyStr e)) ∧ j < bits.length) ∨
          bits.getD j 0 = 1) := by
  constructor
  · exact hp.foldl_eq'
      (fun x _ y _ z => by
        by_cases hxy : x = y
        · rw [hxy]
        · exact List.set_comm 1 1 z hxy) bits
  · intro j
    rw [getD_applyWrites]
    have hmem : j ∈ sched ↔ ∃ e ∈ elems, j ∈ hash_positions sz hc (pyStr e) := by
      rw [hp.mem_iff, List.mem_flatten]
      constructor
      · rintro ⟨l, hl, hj⟩
        obtain ⟨e, he, rfl⟩ := List.mem_map.mp hl
        exact ⟨e, he, hj⟩
      · rintro ⟨e, he, hj⟩
        exact ⟨_, List.mem_map_of_mem _ he, hj⟩
    by_cases hcond : j ∈ sched ∧ j < bits.length
    · rw [if_pos hcond]
      simp [hmem.mp hcond.1, hcond.2]
    · rw [if_neg hcond]
      constructor
      · intro h1
        exact Or.inr h1
      · rintro (⟨hex, hlen⟩ | h1)
        · exact absurd ⟨hmem.mpr hex, hlen⟩ hcond
        · exact h1

/-- C9 witness: two adds (`"a"` and `"b"`, one position each on the 479/1
filter) executed in the swapped order still yield the sequential union. -/
theorem concurrent_adds_final_is_union_witness :
    ([compute_hash 479 (pyStr (PyValue.str "b")) 0,
        compute_hash 479 (pyStr (PyValue.str "a")) 0].Perm
      (List.flatten ([PyValue.str "a", PyValue.str "b"].map
        (fun e => hash_positions 479 1 (pyStr e))))) ∧
      (applyWrites (List.replicate 479 0)
          [compute_hash 479 (pyStr (PyValue.str "b")) 0,
            compute_hash 479 (pyStr (PyValue.str "a")) 0] =
        applyWrites (List.replicate 479 0)
          (List.flatten ([PyValue.str "a", PyValue.str "b"].map
            (fun e => hash_positions 479 1 (pyStr e)))) ∧
        ∀ j : Nat, ((applyWrites (List.replicate 479 0)
            [compute_hash 479 (pyStr (PyValue.str "b")) 0,
              compute_hash 479 (pyStr (PyValue.str "a")) 0]).getD j 0 = 1 ↔
          ((∃ e ∈ [PyValue.str "a", PyValue.str "b"],
              j ∈ hash_positions 479 1 (pyStr e)) ∧
            j < (List.replicate 479 0).length) ∨
            (List.replicate 479 0).getD j 0 = 1)) := by
  have hp : ([compute_hash 479 (pyStr (PyValue.str "b")) 0,
      compute_hash 479 (pyStr (PyValue.str "a")) 0].Perm
    (List.flatten ([PyValue.str "a", PyValue.str "b"].map
      (fun e => hash_positions 479 1 (pyStr e))))) := by
    simp only [List.map_cons, List.map_nil, hash_positions, List.range_succ,
      List.range_zero, List.flatten_cons, List.flatten_nil, List.append_nil,
      List.cons_append, List.nil_append]
    exact List.Perm.swap _ _ _
  exact ⟨hp, concurrent_adds_final_is_union 479 1 (List.replicate 479 0)
    [PyValue.str "a", PyValue.str "b"] _ hp⟩

/-- C10: the construction arithmetic does permit `hash_count = 0` for a
valid input (`n = 1`, `p = 0.47`, near the 0.48 bound), and on any filter
whose metadata records `hash_count = 0`, `check_member` returns `true` for
every element (its loop runs zero times, leaving `res = True`) — including
on a freshly constructed all-zero array — while `add_elem` sets no bits at
all. -/
theorem hash_count_zero_contains_all :
    hash_count_formula 1 (47 / 100) = 0 ∧
      ∀ (bf : BF) (sz : Nat) (e : PyValue), bf.meta = some (sz, 0) →
        check_member bf e = .ok true ∧
          add_elem bf e = .ok { bf with size := sz, hash_count := 0 } := by
  refine ⟨hash_count_1_47, ?_⟩
  rintro ⟨s0, h0, bits, m⟩ sz e hm
  obtain rfl : m = some (sz, 0) := hm
  exact ⟨rfl, rfl⟩

/-- C10 witness: the freshly constructed all-zero filter `size = 1`,
`hash_count = 0`, checked and added with the never-inserted element `2`. -/
theorem hash_count_zero_contains_all_witness :
    (BF.mk 1 0 [0] (some (1, 0))).meta = some (1, 0) ∧
      (check_member ⟨1, 0, [0], some (1, 0)⟩ (PyValue.int 2) = .ok true ∧
        add_elem ⟨1, 0, [0], some (1, 0)⟩ (PyValue.int 2) =
          .ok { (⟨1, 0, [0], some (1, 0)⟩ : BF) with size := 1, hash_count := 0 }) :=
  ⟨rfl, hash_count_zero_contains_all.2 ⟨1, 0, [0], some (1, 0)⟩ 1 (PyValue.int 2) rfl⟩
